import Mathlib

/-!
Verification of the `ghs` terminal client's core algorithms against a shallow
embedding of the Rust source.

Conventions of the embedding:
* Rust `usize` values are modelled as `Nat` (all the arithmetic the claims touch
  is bounded well below overflow, and the source relies on `saturating_sub` /
  checked clamping rather than wrap-around).
* Rust `Range<usize>` is modelled as the structure `NRange` with fields
  `start` and `stop` (`stop` stands for Rust's `end`, which is a Lean keyword).
* Rust strings are modelled as byte lists (`RStr := List Nat`), so the byte
  offsets tracked by `smart_iter_lines` and the match ranges are literal list
  indices.  Characters fed from key events are modelled as single bytes, which
  is exact for the ASCII inputs the key handler distinguishes.
* Iterators are modelled as the lists they yield; `for` loops become structural
  recursion over those lists.
-/

/-- Rust's `Range<usize>` (`std::ops::Range`): `stop` models the `end` field. -/
structure NRange where
  start : Nat
  stop : Nat
deriving DecidableEq, Repr

/-- Rust's `Range::contains(&x)`: `start <= x && x < end`. -/
def NRange.containsN (r : NRange) (x : Nat) : Bool :=
  decide (r.start ≤ x ∧ x < r.stop)

/-- `are_ranges_overlapping` from `src/widgets/search_results.rs` (and its
duplicate in `src/result_widget.rs`):
`b.contains(&a.start) || b.contains(&a.end) || a.contains(&b.start) || a.contains(&b.end)`. -/
def are_ranges_overlapping (a b : NRange) : Bool :=
  b.containsN a.start || b.containsN a.stop || a.containsN b.start || a.containsN b.stop

/-- `RangeSegment` from `src/widgets/search_results.rs`. -/
structure RangeSegment where
  range : NRange
  is_match : Bool
deriving DecidableEq, Repr

/-- Start offset of a segment. -/
def RangeSegment.start (s : RangeSegment) : Nat := s.range.start

/-- End offset of a segment. -/
def RangeSegment.stop (s : RangeSegment) : Nat := s.range.stop

/-- The `for` loop of `fill_out_range_list`, as structural recursion over the
candidate list; `cur` is the mutable `current` cursor.  The trailing `if` of
the source (final unmatched segment) is the base case. -/
def fill_out_range_list_go (ctx : NRange) (cur : Nat) : List NRange → List RangeSegment
  | [] => if cur < ctx.stop then [⟨⟨cur, ctx.stop⟩, false⟩] else []
  | r :: rs =>
    if are_ranges_overlapping ctx r then
      (if cur < r.start then [⟨⟨cur, r.start⟩, false⟩] else []) ++
      (let s := max r.start cur
       let e := min r.stop ctx.stop
       (if s < e then [⟨⟨s, e⟩, true⟩] else []) ++ fill_out_range_list_go ctx e rs)
    else
      fill_out_range_list_go ctx cur rs

/-- `fill_out_range_list` from `src/widgets/search_results.rs`:
sweeps the candidate ranges left to right from `context.start`. -/
def fill_out_range_list (ctx : NRange) (rs : List NRange) : List RangeSegment :=
  fill_out_range_list_go ctx ctx.start rs

/-- Specification predicate: the segment list contiguously and exactly covers
`[lo, hi)` with no zero-length segment. -/
def segIsCover : Nat → Nat → List RangeSegment → Prop
  | lo, hi, [] => lo = hi
  | lo, hi, seg :: rest => seg.start = lo ∧ lo < seg.stop ∧ segIsCover seg.stop hi rest

theorem segIsCover_ne_nil {lo hi : Nat} {l : List RangeSegment}
    (hc : segIsCover lo hi l) (hlt : lo < hi) : l ≠ [] := by
  cases l with
  | nil => exfalso; simp [segIsCover] at hc; omega
  | cons a t => simp

theorem segIsCover_head {lo hi : Nat} {l : List RangeSegment}
    (hc : segIsCover lo hi l) (hne : l ≠ []) :
    (l.map RangeSegment.start).head? = some lo := by
  cases l with
  | nil => exact absurd rfl hne
  | cons a t =>
    simp only [segIsCover] at hc
    simp [hc.1]

theorem segIsCover_chain {lo hi : Nat} {l : List RangeSegment}
    (hc : segIsCover lo hi l) :
    List.Chain' (fun s t => s.stop = t.start) l := by
  induction l generalizing lo with
  | nil => simp
  | cons a t ih =>
    simp only [segIsCover] at hc
    rcases hc with ⟨ha, hlt, hrest⟩
    cases t with
    | nil => simp
    | cons b u =>
      refine List.Chain'.cons ?_ (ih hrest)
      simp only [segIsCover] at hrest
      exact hrest.1.symm

theorem segIsCover_last {lo hi : Nat} {l : List RangeSegment}
    (hc : segIsCover lo hi l) (hne : l ≠ []) :
    (l.map RangeSegment.stop).getLast? = some hi := by
  induction l generalizing lo with
  | nil => exact absurd rfl hne
  | cons a t ih =>
    simp only [segIsCover] at hc
    rcases hc with ⟨ha, hlt, hrest⟩
    cases t with
    | nil =>
      simp only [segIsCover] at hrest
      simp [hrest]
    | cons b u =>
      have := ih hrest (by simp)
      simpa [List.getLast?_cons_cons] using this

theorem segIsCover_pos {lo hi : Nat} {l : List RangeSegment}
    (hc : segIsCover lo hi l) : ∀ s ∈ l, s.start < s.stop := by
  induction l generalizing lo with
  | nil => intro s hs; simp at hs
  | cons a t ih =>
    simp only [segIsCover] at hc
    rcases hc with ⟨ha, hlt, hrest⟩
    intro s hs
    rcases List.mem_cons.mp hs with rfl | hs
    · omega
    · exact ih hrest s hs

theorem overlap_start_le_stop {ctx r : NRange} (hctx : ctx.start ≤ ctx.stop)
    (hr : r.start ≤ r.stop) (hov : are_ranges_overlapping ctx r = true) :
    r.start ≤ ctx.stop := by
  simp only [are_ranges_overlapping, NRange.containsN, Bool.or_eq_true,
    decide_eq_true_eq] at hov
  omega

theorem overlap_start_le_rstop {ctx r : NRange} (hctx : ctx.start ≤ ctx.stop)
    (hr : r.start ≤ r.stop) (hov : are_ranges_overlapping ctx r = true) :
    ctx.start ≤ r.stop := by
  simp only [are_ranges_overlapping, NRange.containsN, Bool.or_eq_true,
    decide_eq_true_eq] at hov
  omega

/-- The sweep of `fill_out_range_list` produces a contiguous cover of
`[cur, ctx.stop)` whenever the candidates are well-formed, sorted and mutually
non-overlapping, the cursor has not passed the context end, and every
still-pending overlapping candidate ends at or after the cursor. -/
theorem fill_go_cover (ctx : NRange) (rs : List NRange) :
    ∀ cur : Nat, ctx.start ≤ ctx.stop →
    (∀ r ∈ rs, r.start ≤ r.stop) →
    List.Pairwise (fun a b => a.stop ≤ b.start) rs →
    cur ≤ ctx.stop →
    (∀ r ∈ rs, are_ranges_overlapping ctx r = true → cur ≤ r.stop) →
    segIsCover cur ctx.stop (fill_out_range_list_go ctx cur rs) := by
  induction rs with
  | nil =>
    intro cur hctx hwf hpw hcur hbnd
    simp only [fill_out_range_list_go]
    by_cases h : cur < ctx.stop
    · simp [h, segIsCover, RangeSegment.start, RangeSegment.stop]
    · simp only [h, if_false]
      simp only [segIsCover]
      omega
  | cons r rs ih =>
    intro cur hctx hwf hpw hcur hbnd
    have hwr : r.start ≤ r.stop := hwf r (by simp)
    simp only [fill_out_range_list_go]
    by_cases hov : are_ranges_overlapping ctx r = true
    · have hcr : cur ≤ r.stop := hbnd r (by simp) hov
      have hrs_le : r.start ≤ ctx.stop := overlap_start_le_stop hctx hwr hov
      simp only [hov, if_true]
      have hih : segIsCover (min r.stop ctx.stop) ctx.stop
          (fill_out_range_list_go ctx (min r.stop ctx.stop) rs) := by
        refine ih (min r.stop ctx.stop) hctx
          (fun x hx => hwf x (List.mem_cons_of_mem _ hx)) hpw.of_cons
          (by omega) ?_
        intro x hx _
        have h1 : r.stop ≤ x.start := (List.pairwise_cons.mp hpw).1 x hx
        have h2 : x.start ≤ x.stop := hwf x (List.mem_cons_of_mem _ hx)
        omega
      by_cases hgap : cur < r.start
      · have hmax : max r.start cur = r.start := Nat.max_eq_left (Nat.le_of_lt hgap)
        simp only [hgap, if_true, hmax, List.singleton_append]
        by_cases hm : r.start < min r.stop ctx.stop
        · simp only [hm, if_true, List.singleton_append]
          refine ⟨rfl, hgap, rfl, hm, hih⟩
        · have heq : min r.stop ctx.stop = r.start := by omega
          simp only [hm, if_false, List.nil_append]
          exact ⟨rfl, hgap, heq ▸ hih⟩
      · have hmax : max r.start cur = cur := Nat.max_eq_right (by omega)
        simp only [hgap, if_false, List.nil_append, hmax]
        by_cases hm : cur < min r.stop ctx.stop
        · simp only [hm, if_true, List.singleton_append]
          exact ⟨rfl, hm, hih⟩
        · have heq : min r.stop ctx.stop = cur := by omega
          simp only [hm, if_false, List.nil_append]
          exact heq ▸ hih
    · simp only [hov, if_false]
      exact ih cur hctx (fun x hx => hwf x (List.mem_cons_of_mem _ hx)) hpw.of_cons
        hcur (fun x hx hxov => hbnd x (List.mem_cons_of_mem _ hx) hxov)

/-- Candidates that fail the overlap test are skipped by the sweep: filtering
them away beforehand yields the same segment list. -/
theorem fill_go_filter (ctx : NRange) (rs : List NRange) :
    ∀ cur : Nat,
      fill_out_range_list_go ctx cur
        (rs.filter (fun r => are_ranges_overlapping ctx r)) =
      fill_out_range_list_go ctx cur rs := by
  induction rs with
  | nil => intro cur; rfl
  | cons r rs ih =>
    intro cur
    by_cases hov : are_ranges_overlapping ctx r = true
    · rw [List.filter_cons_of_pos (by simpa using hov)]
      simp only [fill_out_range_list_go, hov, if_true]
      rw [ih]
    · rw [List.filter_cons_of_neg (by simpa using hov)]
      simp only [fill_out_range_list_go, hov, if_false]
      exact ih cur

/-- C1: for every context range `[a,b)` and every ascending, mutually
non-overlapping list of well-formed candidate ranges, `fill_out_range_list`
returns a segment list that contiguously and exactly covers `[a,b)` when
`a < b`: the list is non-empty, its first segment starts at `a`, each segment's
end equals the next segment's start, the last segment ends at `b`, no segment
has zero length, and candidates failing the overlap test contribute no segment
(filtering them out first gives the same output). -/
theorem fill_out_range_list_covers_context (ctx : NRange) (rs : List NRange)
    (hwf : ∀ r ∈ rs, r.start ≤ r.stop)
    (hpw : List.Pairwise (fun a b => a.stop ≤ b.start) rs)
    (hab : ctx.start < ctx.stop) :
    fill_out_range_list ctx rs ≠ [] ∧
    ((fill_out_range_list ctx rs).map RangeSegment.start).head? = some ctx.start ∧
    List.Chain' (fun s t => s.stop = t.start) (fill_out_range_list ctx rs) ∧
    ((fill_out_range_list ctx rs).map RangeSegment.stop).getLast? = some ctx.stop ∧
    (∀ s ∈ fill_out_range_list ctx rs, s.start < s.stop) ∧
    fill_out_range_list ctx (rs.filter (fun r => are_ranges_overlapping ctx r)) =
      fill_out_range_list ctx rs := by
  have hc : segIsCover ctx.start ctx.stop (fill_out_range_list ctx rs) := by
    refine fill_go_cover ctx rs ctx.start (Nat.le_of_lt hab) hwf hpw (Nat.le_of_lt hab) ?_
    intro r hr hov
    exact overlap_start_le_rstop (Nat.le_of_lt hab) (hwf r hr) hov
  have hne : fill_out_range_list ctx rs ≠ [] := segIsCover_ne_nil hc hab
  exact ⟨hne, segIsCover_head hc hne, segIsCover_chain hc, segIsCover_last hc hne,
    segIsCover_pos hc, fill_go_filter ctx rs ctx.start⟩

/-- Witness for C1 at the spec's own example: context `0..100`, one candidate
`25..50`. -/
theorem fill_out_range_list_covers_context_witness :
    ((∀ r ∈ [NRange.mk 25 50], r.start ≤ r.stop) ∧
     List.Pairwise (fun a b : NRange => a.stop ≤ b.start) [NRange.mk 25 50] ∧
     (NRange.mk 0 100).start < (NRange.mk 0 100).stop) ∧
    (fill_out_range_list ⟨0, 100⟩ [⟨25, 50⟩] ≠ [] ∧
     ((fill_out_range_list ⟨0, 100⟩ [⟨25, 50⟩]).map RangeSegment.start).head? = some 0 ∧
     List.Chain' (fun s t => s.stop = t.start) (fill_out_range_list ⟨0, 100⟩ [⟨25, 50⟩]) ∧
     ((fill_out_range_list ⟨0, 100⟩ [⟨25, 50⟩]).map RangeSegment.stop).getLast? = some 100 ∧
     (∀ s ∈ fill_out_range_list ⟨0, 100⟩ [⟨25, 50⟩], s.start < s.stop) ∧
     fill_out_range_list ⟨0, 100⟩
         ([⟨25, 50⟩].filter (fun r => are_ranges_overlapping ⟨0, 100⟩ r)) =
       fill_out_range_list ⟨0, 100⟩ [⟨25, 50⟩]) :=
  ⟨⟨by decide, by decide, by decide⟩,
    fill_out_range_list_covers_context ⟨0, 100⟩ [⟨25, 50⟩] (by decide) (by decide) (by decide)⟩

/-- C9: for non-empty ranges, the overlap test of the Range Filler returns
`true` exactly when the closed intervals `[a.start, a.stop]` and
`[b.start, b.stop]` intersect; in particular a candidate touching the context
only at a boundary point is judged overlapping. -/
theorem are_ranges_overlapping_iff_closed_intersect (a b : NRange)
    (ha : a.start < a.stop) (hb : b.start < b.stop) :
    are_ranges_overlapping a b = true ↔ a.start ≤ b.stop ∧ b.start ≤ a.stop := by
  simp only [are_ranges_overlapping, NRange.containsN, Bool.or_eq_true,
    decide_eq_true_eq]
  omega

/-- Witness for C9: candidate `5..10` touches context `10..20` exactly at the
boundary point `10` and is judged overlapping. -/
theorem are_ranges_overlapping_iff_closed_intersect_witness :
    ((NRange.mk 10 20).start < (NRange.mk 10 20).stop ∧
     (NRange.mk 5 10).start < (NRange.mk 5 10).stop) ∧
    (are_ranges_overlapping ⟨10, 20⟩ ⟨5, 10⟩ = true ↔ 10 ≤ 10 ∧ 5 ≤ 20) :=
  ⟨⟨by decide, by decide⟩,
    are_ranges_overlapping_iff_closed_intersect ⟨10, 20⟩ ⟨5, 10⟩ (by decide) (by decide)⟩

/-- Rust strings are modelled as byte lists; `\n` is byte 10, `\r` is byte 13. -/
abbrev RStr := List Nat

/-- Rust `s.find('\n')`: byte index of the first `\n`, if any. -/
def find_nl : RStr → Option Nat
  | [] => none
  | b :: rest => if b = 10 then some 0 else (find_nl rest).map (· + 1)

/-- Rust `s.find("\r\n")`: byte index of the first occurrence of the two-byte
pattern `\r\n`, if any. -/
def find_crnl : RStr → Option Nat
  | [] => none
  | [_] => none
  | b1 :: b2 :: rest =>
    if b1 = 13 ∧ b2 = 10 then some 0
    else (find_crnl (b2 :: rest)).map (· + 1)

/-- `SmartLineItem` from `src/widgets/search_results.rs`. -/
structure SmartLineItem where
  content : RStr
  start : Nat
deriving DecidableEq, Repr

/-- The per-iteration computation of `smart_iter_lines`: the pair
`(next_newline, offset)`, where `offset` is 2 if `\r\n` occurs anywhere, else 1
if `\n` occurs anywhere, else 0, and `next_newline` is
`next_newline_carriage_return.or(next_newline).unwrap_or(s.len())`. -/
def lineSplitPos (s : RStr) : Nat × Nat :=
  let next_newline_carriage_return := find_crnl s
  let next_newline := find_nl s
  let offset := if next_newline_carriage_return.isSome then 2
    else if next_newline.isSome then 1 else 0
  ((next_newline_carriage_return.or next_newline).getD s.length, offset)

theorem drop_lineSplitPos_lt (s : RStr) (h : s ≠ []) :
    (s.drop ((lineSplitPos s).1 + (lineSplitPos s).2)).length < s.length := by
  rw [List.length_drop]
  have hlen : 0 < s.length := List.length_pos.mpr h
  rcases hc : find_crnl s with _ | k
  · rcases hn : find_nl s with _ | k
    · simp [lineSplitPos, hc, hn, Option.or]
      omega
    · simp [lineSplitPos, hc, hn, Option.or]
      omega
  · simp [lineSplitPos, hc, Option.or]
    omega

/-- The loop of `smart_iter_lines` from `src/widgets/search_results.rs`
(duplicated in `src/result_widget.rs`): each iteration yields the bytes before
the found terminator as `content` together with the running byte `counter`,
then advances past content and terminator; iteration stops when the remaining
string is empty. -/
def smart_iter_lines_from (counter : Nat) (s : RStr) : List SmartLineItem :=
  if h : s = [] then []
  else
    ⟨s.take (lineSplitPos s).1, counter⟩ ::
      smart_iter_lines_from (counter + (lineSplitPos s).1 + (lineSplitPos s).2)
        (s.drop ((lineSplitPos s).1 + (lineSplitPos s).2))
termination_by s.length
decreasing_by exact drop_lineSplitPos_lt s h

/-- `smart_iter_lines(s)`: the iterator starts with `counter = 0`. -/
def smart_iter_lines (s : RStr) : List SmartLineItem := smart_iter_lines_from 0 s

/-- The chunk of input consumed by one iteration of `smart_iter_lines`
(content plus the consumed terminator). -/
def smart_chunks (s : RStr) : List RStr :=
  if h : s = [] then []
  else
    s.take ((lineSplitPos s).1 + (lineSplitPos s).2) ::
      smart_chunks (s.drop ((lineSplitPos s).1 + (lineSplitPos s).2))
termination_by s.length
decreasing_by exact drop_lineSplitPos_lt s h

theorem find_nl_spec : ∀ (s : RStr) (k : Nat), find_nl s = some k →
    ∃ t, s.drop k = 10 :: t
  | [], k, h => by simp [find_nl] at h
  | b :: rest, k, h => by
    simp only [find_nl] at h
    by_cases hb : b = 10
    · rw [if_pos hb] at h
      obtain rfl : (0 : Nat) = k := Option.some.inj h
      exact ⟨rest, by simp [hb]⟩
    · rw [if_neg hb] at h
      obtain ⟨k', hk', rfl⟩ := Option.map_eq_some'.mp h
      obtain ⟨t, ht⟩ := find_nl_spec rest k' hk'
      exact ⟨t, by simpa using ht⟩

theorem find_crnl_spec : ∀ (s : RStr) (k : Nat), find_crnl s = some k →
    ∃ t, s.drop k = 13 :: 10 :: t
  | [], k, h => by simp [find_crnl] at h
  | [b], k, h => by simp [find_crnl] at h
  | b1 :: b2 :: rest, k, h => by
    simp only [find_crnl] at h
    by_cases hb : b1 = 13 ∧ b2 = 10
    · rw [if_pos hb] at h
      obtain rfl : (0 : Nat) = k := Option.some.inj h
      exact ⟨rest, by simp [hb.1, hb.2]⟩
    · rw [if_neg hb] at h
      obtain ⟨k', hk', rfl⟩ := Option.map_eq_some'.mp h
      obtain ⟨t, ht⟩ := find_crnl_spec (b2 :: rest) k' hk'
      exact ⟨t, by simpa using ht⟩

/-- The terminator consumed by one iteration is empty, `\n`, or `\r\n`. -/
theorem consumed_terminator_shape (s : RStr) :
    (s.drop (lineSplitPos s).1).take (lineSplitPos s).2 = [] ∨
    (s.drop (lineSplitPos s).1).take (lineSplitPos s).2 = [10] ∨
    (s.drop (lineSplitPos s).1).take (lineSplitPos s).2 = [13, 10] := by
  rcases hc : find_crnl s with _ | k
  · rcases hn : find_nl s with _ | k
    · left
      simp [lineSplitPos, hc, hn, Option.or]
    · right; left
      have h1 : (lineSplitPos s).1 = k := by simp [lineSplitPos, hc, hn, Option.or]
      have h2 : (lineSplitPos s).2 = 1 := by simp [lineSplitPos, hc, hn, Option.or]
      obtain ⟨t, ht⟩ := find_nl_spec s k hn
      rw [h1, h2, ht]
      rfl
  · right; right
    have h1 : (lineSplitPos s).1 = k := by simp [lineSplitPos, hc, Option.or]
    have h2 : (lineSplitPos s).2 = 2 := by simp [lineSplitPos, hc, Option.or]
    obtain ⟨t, ht⟩ := find_crnl_spec s k hc
    rw [h1, h2, ht]
    rfl

theorem smart_iter_round_trip_aux (counter : Nat) (s : RStr) :
    (smart_chunks s).flatten = s ∧
    List.Forall₂ (fun (it : SmartLineItem) (c : RStr) =>
        ∃ tm, c = it.content ++ tm ∧ (tm = [] ∨ tm = [10] ∨ tm = [13, 10]))
      (smart_iter_lines_from counter s) (smart_chunks s) := by
  by_cases h : s = []
  · subst h
    rw [smart_chunks, smart_iter_lines_from]
    simp
  · rw [smart_chunks, smart_iter_lines_from]
    simp only [dif_neg h]
    obtain ⟨ih1, ih2⟩ :=
      smart_iter_round_trip_aux (counter + (lineSplitPos s).1 + (lineSplitPos s).2)
        (s.drop ((lineSplitPos s).1 + (lineSplitPos s).2))
    refine ⟨?_, ?_⟩
    · rw [List.flatten_cons, ih1, List.take_append_drop]
    · refine List.Forall₂.cons ?_ ih2
      refine ⟨(s.drop (lineSplitPos s).1).take (lineSplitPos s).2, ?_,
        consumed_terminator_shape s⟩
      exact List.take_add s (lineSplitPos s).1 (lineSplitPos s).2
termination_by s.length
decreasing_by exact drop_lineSplitPos_lt s h

/-- C2 (amended): concatenating the consumed chunks of `smart_iter_lines`
reconstructs `s` exactly — each item's chunk is its `content` followed by the
consumed terminator (empty, `\n`, or `\r\n`), and the chunks flatten back to
`s`, so no byte of the input is ever skipped.  (The original claim's trailing
empty-content item for a string ending in a terminator is not produced:
iteration stops when the remainder is empty, see the counterexample.) -/
theorem smart_iter_lines_round_trip (s : RStr) :
    (smart_chunks s).flatten = s ∧
    List.Forall₂ (fun (it : SmartLineItem) (c : RStr) =>
        ∃ tm, c = it.content ++ tm ∧ (tm = [] ∨ tm = [10] ∨ tm = [13, 10]))
      (smart_iter_lines s) (smart_chunks s) :=
  smart_iter_round_trip_aux 0 s

/-- C2 counterexample: for the input `"a\n"` (bytes `[97, 10]`), which ends in
a line terminator, `smart_iter_lines` yields the single item `("a", 0)` and in
particular no final empty-content item. -/
theorem smart_iter_lines_no_trailing_empty_item :
    smart_iter_lines [97, 10] = [⟨[97], 0⟩] ∧
    ¬ ((smart_iter_lines [97, 10]).getLast?.map SmartLineItem.content = some []) := by
  have h : smart_iter_lines [97, 10] = [⟨[97], 0⟩] := by
    simp [smart_iter_lines, smart_iter_lines_from, lineSplitPos, find_crnl, find_nl,
      Option.or] <;> decide
  refine ⟨h, ?_⟩
  rw [h]
  decide

/-- C3 (code-bug evaluation): on the mixed-endings input `"a\nb\r\nc"`
(bytes `[97, 10, 98, 13, 10, 99]`) the iterator jumps to the first `\r\n`
because `find("\r\n").or(find('\n'))` prefers the `\r\n` position, so the first
emitted item is `("a\nb", 0)` — a "line" whose content contains the byte `\n` —
instead of the per-occurrence priority split `("a", 0), ("b", 2), ("c", 5)`
described by the claim. -/
theorem smart_iter_lines_mixed_endings_eval :
    smart_iter_lines [97, 10, 98, 13, 10, 99] = [⟨[97, 10, 98], 0⟩, ⟨[99], 5⟩] ∧
    10 ∈ (SmartLineItem.mk [97, 10, 98] 0).content := by
  constructor
  · simp [smart_iter_lines, smart_iter_lines_from, lineSplitPos, find_crnl, find_nl,
      Option.or] <;> decide
  · decide

/-- Rust `str::to_lowercase`, modelled at the byte level for ASCII. -/
def to_lowercase (s : RStr) : RStr :=
  s.map (fun b => if 65 ≤ b ∧ b ≤ 90 then b + 32 else b)

/-- Rust `str::contains(&needle)`: substring test. -/
def rustContains (hay needle : RStr) : Bool :=
  decide (needle <:+: hay)

/-- `RepositoryOwner` from `src/results.rs`. -/
structure RepositoryOwner where
  login : RStr
deriving DecidableEq, Repr

/-- `ItemRepository` from `src/results.rs`. -/
structure ItemRepository where
  name : RStr
  full_name : RStr
  owner : RepositoryOwner
deriving DecidableEq, Repr

/-- `MatchSegment` from `src/results.rs`. -/
structure MatchSegment where
  indices : Nat × Nat
  text : RStr
deriving DecidableEq, Repr

/-- `TextMatch` from `src/results.rs`; `matchesL` models the source field
`matches` (`matches` is a Lean keyword). -/
structure TextMatch where
  fragment : RStr
  matchesL : List MatchSegment
deriving DecidableEq, Repr

/-- `ItemResult` from `src/results.rs`. -/
structure ItemResult where
  name : RStr
  path : RStr
  html_url : RStr
  text_matches : List TextMatch
  repository : ItemRepository
deriving DecidableEq, Repr

/-- `CodeResults` from `src/results.rs`. -/
structure CodeResults where
  items : List ItemResult
deriving DecidableEq, Repr

/-- `fill_out_segments` from `src/widgets/search_results.rs`: converts the
`indices` pairs to ranges and runs `fill_out_range_list`. -/
def fill_out_segments (context : NRange) (segments : List MatchSegment) :
    List RangeSegment :=
  fill_out_range_list context (segments.map (fun ms => ⟨ms.indices.1, ms.indices.2⟩))

/-- `FilterMode` from `src/widgets/search_results.rs`. -/
inductive FilterMode
  | Inactive
  | Editing
  | Applied
deriving DecidableEq, Repr

/-- `TextInputState` from `src/widgets/text_input.rs`. -/
structure TextInputState where
  input : RStr
  cursor_position : Nat
deriving DecidableEq, Repr

/-- `crossterm::event::KeyCode`, restricted to the variants the app matches
on; `Char` carries a single byte (exact for the ASCII keys dispatched). -/
inductive KeyCode
  | Char (c : Nat)
  | Down
  | Up
  | Enter
  | Esc
  | Backspace
  | Delete
  | Left
  | Right
  | Home
  | End
  | Other
deriving DecidableEq, Repr

/-- `crossterm::event::KeyEvent`: the key code, whether CONTROL is among the
modifiers, and whether the event kind is `Press`. -/
structure KeyEvent where
  code : KeyCode
  ctrl : Bool
  press : Bool
deriving DecidableEq, Repr

/-- `TextInputState::handle_key` from `src/widgets/text_input.rs`; the `Bool`
is its return value. -/
def TextInputState.handle_key (key : KeyEvent) (s : TextInputState) :
    TextInputState × Bool :=
  match key.code with
  | .Char c =>
    ({ input := s.input.take s.cursor_position ++ c :: s.input.drop s.cursor_position,
       cursor_position := s.cursor_position + 1 }, true)
  | .Backspace =>
    (if 0 < s.cursor_position then
       { input := s.input.take (s.cursor_position - 1) ++ s.input.drop s.cursor_position,
         cursor_position := s.cursor_position - 1 }
     else s, true)
  | .Delete =>
    (if s.cursor_position < s.input.length then
       { s with input := s.input.take s.cursor_position ++
           s.input.drop (s.cursor_position + 1) }
     else s, true)
  | .Left => ({ s with cursor_position := s.cursor_position - 1 }, true)
  | .Right => ({ s with cursor_position := min (s.cursor_position + 1) s.input.length }, true)
  | .Home => ({ s with cursor_position := 0 }, true)
  | .End => ({ s with cursor_position := s.input.length }, true)
  | _ => (s, false)

/-- `SearchResultsState` from `src/widgets/search_results.rs`. -/
structure SearchResultsState where
  vertical_scroll : Nat
  selected_item_idx : Nat
  filter_mode : FilterMode
  filter_input_state : TextInputState
deriving DecidableEq, Repr

/-- `KeyHandleResult` from `src/widgets/search_results.rs`. -/
inductive KeyHandleResult
  | Handled
  | NeedsPagination
deriving DecidableEq, Repr

/-- `SearchResultsState::should_include_match`. -/
def should_include_match (s : SearchResultsState) (item : ItemResult)
    (text_match : TextMatch) : Bool :=
  if s.filter_mode = FilterMode.Inactive ∨ s.filter_input_state.input = [] then
    true
  else
    let filter := to_lowercase s.filter_input_state.input
    rustContains (to_lowercase item.path) filter ||
    rustContains (to_lowercase item.repository.full_name) filter ||
    rustContains (to_lowercase text_match.fragment) filter

/-- `iter_text_matches_filtered` from `src/widgets/search_results.rs`, as the
list of pairs the iterator yields. -/
def iter_text_matches_filtered (code : CodeResults) (state : SearchResultsState) :
    List (ItemResult × TextMatch) :=
  code.items.bind (fun item =>
    (item.text_matches.filter (fun text_match => should_include_match state item text_match)).map
      (fun text_match => (item, text_match)))

/-- The navigation tail of `SearchResultsState::handle_key` (after the filter
mode dispatch): wrap-around `j`/`Down`, saturating `k`/`Up`, open on
`l`/`Enter` (the `open::that` side effect is dropped), early return when the
filtered count is zero. -/
def results_nav (key : KeyEvent) (code : CodeResults) (s : SearchResultsState) :
    SearchResultsState × KeyHandleResult :=
  let filtered_count := (iter_text_matches_filtered code s).length
  if filtered_count = 0 then (s, .Handled)
  else
    match key.code with
    | .Char 106 | .Down =>
      let idx := (s.selected_item_idx + 1) % filtered_count
      ({ s with selected_item_idx := idx },
       if filtered_count - 5 ≤ idx then .NeedsPagination else .Handled)
    | .Char 107 | .Up =>
      ({ s with selected_item_idx := s.selected_item_idx - 1 }, .Handled)
    | .Char 108 | .Enter => (s, .Handled)
    | _ => (s, .Handled)

/-- `SearchResultsState::handle_key` from `src/widgets/search_results.rs`
(`_total_items` is unused in the source and kept for the signature). -/
def SearchResultsState.handle_key (key : KeyEvent) (total_items : Nat)
    (code : CodeResults) (s : SearchResultsState) :
    SearchResultsState × KeyHandleResult :=
  match s.filter_mode with
  | .Editing =>
    match key.code with
    | .Esc =>
      ({ s with filter_mode :=
          if s.filter_input_state.input = [] then .Inactive else .Applied }, .Handled)
    | .Enter => ({ s with filter_mode := .Applied }, .Handled)
    | _ =>
      let old_input := s.filter_input_state.input
      let fis := (TextInputState.handle_key key s.filter_input_state).1
      let s' := { s with filter_input_state := fis }
      (if old_input ≠ fis.input then { s' with selected_item_idx := 0 } else s', .Handled)
  | .Applied =>
    match key.code with
    | .Esc =>
      ({ s with filter_mode := .Inactive,
                filter_input_state := ⟨[], 0⟩,
                selected_item_idx := 0 }, .Handled)
    | .Char 47 => ({ s with filter_mode := .Editing }, .Handled)
    | _ => results_nav key code s
  | .Inactive =>
    if key.code = .Char 47 then ({ s with filter_mode := .Editing }, .Handled)
    else results_nav key code s

/-- C10: when the filtered result count is zero, every navigation or open key
(`j`, `k`, `l`, `Down`, `Up`, `Enter`) handled on the results screen outside
editing mode returns `Handled` and leaves the whole state (selected index,
scroll offset, filter state) unchanged; the early return guards the modulo. -/
theorem handle_key_zero_filtered_noop (key : KeyEvent) (total_items : Nat)
    (code : CodeResults) (s : SearchResultsState)
    (hm : s.filter_mode = FilterMode.Inactive ∨ s.filter_mode = FilterMode.Applied)
    (hk : key.code = .Char 106 ∨ key.code = .Char 107 ∨ key.code = .Char 108 ∨
          key.code = .Down ∨ key.code = .Up ∨ key.code = .Enter)
    (hz : iter_text_matches_filtered code s = []) :
    SearchResultsState.handle_key key total_items code s = (s, .Handled) := by
  have hnav : results_nav key code s = (s, .Handled) := by
    simp [results_nav, hz]
  rcases hm with hm | hm <;> rcases hk with hk | hk | hk | hk | hk | hk <;>
    simp [SearchResultsState.handle_key, hm, hk, hnav]

/-- A concrete results sample: one item with three unfiltered text matches. -/
def sampleTM : TextMatch := ⟨[], []⟩

/-- A concrete item holding three text matches. -/
def sampleItem : ItemResult := ⟨[], [], [], [sampleTM, sampleTM, sampleTM], ⟨[], [], ⟨[]⟩⟩⟩

/-- A concrete `CodeResults` with three text matches in total. -/
def sampleCode : CodeResults := ⟨[sampleItem]⟩

/-- Witness for C10: with an empty result set, pressing `j` on the results
screen is a no-op returning `Handled`. -/
theorem handle_key_zero_filtered_noop_witness :
    ((SearchResultsState.mk 0 0 .Inactive ⟨[], 0⟩).filter_mode = FilterMode.Inactive ∨
     (SearchResultsState.mk 0 0 .Inactive ⟨[], 0⟩).filter_mode = FilterMode.Applied) ∧
    ((KeyEvent.mk (.Char 106) false true).code = KeyCode.Char 106 ∨
     (KeyEvent.mk (.Char 106) false true).code = KeyCode.Char 107 ∨
     (KeyEvent.mk (.Char 106) false true).code = KeyCode.Char 108 ∨
     (KeyEvent.mk (.Char 106) false true).code = KeyCode.Down ∨
     (KeyEvent.mk (.Char 106) false true).code = KeyCode.Up ∨
     (KeyEvent.mk (.Char 106) false true).code = KeyCode.Enter) ∧
    iter_text_matches_filtered ⟨[]⟩ (SearchResultsState.mk 0 0 .Inactive ⟨[], 0⟩) = [] ∧
    SearchResultsState.handle_key ⟨.Char 106, false, true⟩ 0 ⟨[]⟩
        (SearchResultsState.mk 0 0 .Inactive ⟨[], 0⟩) =
      (SearchResultsState.mk 0 0 .Inactive ⟨[], 0⟩, .Handled) :=
  ⟨Or.inl rfl, Or.inl rfl, rfl,
    handle_key_zero_filtered_noop ⟨.Char 106, false, true⟩ 0 ⟨[]⟩
      (SearchResultsState.mk 0 0 .Inactive ⟨[], 0⟩) (Or.inl rfl) (Or.inl rfl) rfl⟩

/-- C5 (amended): with a non-zero filtered count `n` and the filter not in
editing mode, a next-item key (`j`/`Down`) sets the selected index to
`(i + 1) % n`, while a previous-item key (`k`/`Up`) sets it to `i - 1`
saturating at 0 — previous at index 0 stays at 0 and does not wrap to `n - 1`. -/
theorem nav_next_wraps_prev_saturates (code : CodeResults) (s : SearchResultsState)
    (total_items : Nat)
    (hm : s.filter_mode = FilterMode.Inactive ∨ s.filter_mode = FilterMode.Applied)
    (hn : (iter_text_matches_filtered code s).length ≠ 0)
    (hi : s.selected_item_idx < (iter_text_matches_filtered code s).length) :
    ((SearchResultsState.handle_key ⟨.Char 106, false, true⟩ total_items code s).1.selected_item_idx =
        (s.selected_item_idx + 1) % (iter_text_matches_filtered code s).length) ∧
    ((SearchResultsState.handle_key ⟨.Down, false, true⟩ total_items code s).1.selected_item_idx =
        (s.selected_item_idx + 1) % (iter_text_matches_filtered code s).length) ∧
    ((SearchResultsState.handle_key ⟨.Char 107, false, true⟩ total_items code s).1.selected_item_idx =
        s.selected_item_idx - 1) ∧
    ((SearchResultsState.handle_key ⟨.Up, false, true⟩ total_items code s).1.selected_item_idx =
        s.selected_item_idx - 1) := by
  rcases hm with hm | hm <;>
    refine ⟨?_, ?_, ?_, ?_⟩ <;>
      simp [SearchResultsState.handle_key, hm, results_nav, hn]

/-- C5 counterexample: with three filtered results and the selection at index
0, pressing `k` (previous) leaves the index at 0; the claim's
`(0 - 1) mod 3 = 2` does not happen. -/
theorem prev_at_zero_does_not_wrap :
    (iter_text_matches_filtered sampleCode ⟨0, 0, .Inactive, ⟨[], 0⟩⟩).length = 3 ∧
    (SearchResultsState.handle_key ⟨.Char 107, false, true⟩ 3 sampleCode
        ⟨0, 0, .Inactive, ⟨[], 0⟩⟩).1.selected_item_idx = 0 ∧
    (0 : Nat) ≠ (0 + 3 - 1) % 3 := by
  refine ⟨by decide, by decide, by decide⟩

/-- Witness for C5 (amended) at a concrete input: three filtered results,
selection at index 2; `j` wraps to 0, `k` goes back to 1. -/
theorem nav_next_wraps_prev_saturates_witness :
    ((SearchResultsState.mk 0 2 .Inactive ⟨[], 0⟩).filter_mode = FilterMode.Inactive ∨
     (SearchResultsState.mk 0 2 .Inactive ⟨[], 0⟩).filter_mode = FilterMode.Applied) ∧
    (iter_text_matches_filtered sampleCode (SearchResultsState.mk 0 2 .Inactive ⟨[], 0⟩)).length ≠ 0 ∧
    (SearchResultsState.mk 0 2 .Inactive ⟨[], 0⟩).selected_item_idx <
      (iter_text_matches_filtered sampleCode (SearchResultsState.mk 0 2 .Inactive ⟨[], 0⟩)).length ∧
    ((SearchResultsState.handle_key ⟨.Char 106, false, true⟩ 3 sampleCode
        (SearchResultsState.mk 0 2 .Inactive ⟨[], 0⟩)).1.selected_item_idx =
      (2 + 1) % (iter_text_matches_filtered sampleCode (SearchResultsState.mk 0 2 .Inactive ⟨[], 0⟩)).length) ∧
    ((SearchResultsState.handle_key ⟨.Char 107, false, true⟩ 3 sampleCode
        (SearchResultsState.mk 0 2 .Inactive ⟨[], 0⟩)).1.selected_item_idx = 2 - 1) :=
  ⟨Or.inl rfl, by decide, by decide,
    (nav_next_wraps_prev_saturates sampleCode (SearchResultsState.mk 0 2 .Inactive ⟨[], 0⟩) 3
      (Or.inl rfl) (by decide) (by decide)).1,
    (nav_next_wraps_prev_saturates sampleCode (SearchResultsState.mk 0 2 .Inactive ⟨[], 0⟩) 3
      (Or.inl rfl) (by decide) (by decide)).2.2.1⟩

/-- `PaginationInfo` from `src/api.rs`. -/
structure PaginationInfo where
  prev : Option RStr
  next : Option RStr
  first : Option RStr
  last : Option RStr
deriving DecidableEq, Repr

/-- `CodeResultsWithPagination` from `src/api.rs`. -/
structure CodeResultsWithPagination where
  results : CodeResults
  pagination : Option PaginationInfo
deriving DecidableEq, Repr

/-- `SearchHistory` from `src/history.rs`. -/
structure SearchHistory where
  searches : List RStr
  selected_idx : Option Nat
deriving DecidableEq, Repr

/-- `SearchHistory::new`. -/
def SearchHistory.new (searches : List RStr) : SearchHistory :=
  ⟨searches, none⟩

/-- `SearchHistory::add_search`: dedup, insert at the front, cap at 100. -/
def SearchHistory.add_search (query : RStr) (h : SearchHistory) : SearchHistory :=
  let searches := h.searches.filter (fun s => s ≠ query)
  let searches := query :: searches
  let searches := if 100 < searches.length then searches.take 100 else searches
  { h with searches := searches }

/-- `SearchHistory::select_next`. -/
def SearchHistory.select_next (h : SearchHistory) : SearchHistory :=
  if h.searches = [] then h
  else
    { h with selected_idx := some (match h.selected_idx with
        | none => 0
        | some idx => min (idx + 1) (h.searches.length - 1)) }

/-- `SearchHistory::select_prev`. -/
def SearchHistory.select_prev (h : SearchHistory) : SearchHistory :=
  if h.searches = [] then h
  else
    { h with selected_idx := some (match h.selected_idx with
        | none => 0
        | some idx => idx - 1) }

/-- `SearchHistory::get_selected`. -/
def SearchHistory.get_selected (h : SearchHistory) : Option RStr :=
  h.selected_idx.bind (fun idx => h.searches.get? idx)

/-- `SearchHistory::clear_selection`. -/
def SearchHistory.clear_selection (h : SearchHistory) : SearchHistory :=
  { h with selected_idx := none }

/-- `SearchState` from `src/app.rs`. -/
inductive SearchState
  | Idle
  | Loading (query : RStr)
  | Loaded (query : RStr) (results : CodeResults)
      (pagination : Option PaginationInfo) (current_page : Nat)
  | LoadingMore (query : RStr) (results : CodeResults)
      (pagination : Option PaginationInfo) (current_page : Nat)
deriving DecidableEq, Repr

/-- `AppMessage` from `src/app.rs`. -/
inductive AppMessage
  | SearchComplete (results : CodeResultsWithPagination) (query : RStr)
  | SearchError (error : RStr)
  | PaginationComplete (results : CodeResultsWithPagination) (page : Nat)
  | PaginationError (error : RStr)
  | HistoryLoaded (searches : List RStr)
deriving DecidableEq, Repr

/-- `Screen` from `src/app.rs`. -/
inductive Screen
  | SearchPrompt
  | SearchResults
deriving DecidableEq, Repr

/-- `AppState` from `src/app.rs`. -/
structure AppState where
  should_exit : Bool
  current_screen : Screen
  frame_counter : Nat
deriving DecidableEq, Repr

/-- `App` from `src/app.rs` (the `message_tx` channel handle carries no
state and is dropped; spawned background tasks are modelled by the messages
they later deliver to `App::handle_message`). -/
structure App where
  search_state : SearchState
  search_history : SearchHistory
  input_state : TextInputState
  search_results_state : SearchResultsState
deriving DecidableEq, Repr

/-- ASCII whitespace for Rust `str::trim` (space, \t, \n, \v, \f, \r). -/
def isWsByte (b : Nat) : Bool :=
  b = 32 ∨ b = 9 ∨ b = 10 ∨ b = 11 ∨ b = 12 ∨ b = 13

/-- Rust `str::trim`, modelled for ASCII whitespace. -/
def trimBytes (s : RStr) : RStr :=
  ((s.dropWhile isWsByte).reverse.dropWhile isWsByte).reverse

/-- `App::try_load_next_page`: only a `Loaded` state with a pagination token
whose `next` link exists transitions to `LoadingMore` (the page fetch is
spawned in the source; its result arrives later as `PaginationComplete`). -/
def App.try_load_next_page (app : App) : App :=
  match app.search_state with
  | .Loaded query results (some pagination) current_page =>
    if pagination.next.isSome then
      { app with search_state := .LoadingMore query results (some pagination) current_page }
    else app
  | _ => app

/-- `App::handle_key` from `src/app.rs`.  Non-press events are ignored; the
prompt screen dispatches exit/history/submit keys in source order; the results
screen lets `Esc` with no active filter return to the prompt, otherwise routes
the key to `SearchResultsState::handle_key` and possibly starts pagination. -/
def App.handle_key (key : KeyEvent) (app : App) (st : AppState) : App × AppState :=
  if key.press = false then (app, st)
  else
    match st.current_screen with
    | .SearchPrompt =>
      if key.code = .Esc ∨ (key.code = .Char 99 ∧ key.ctrl) then
        (app, { st with should_exit := true })
      else if key.code = .Down ∨ (key.code = .Char 106 ∧ key.ctrl) then
        let h := app.search_history.select_next
        let app := { app with search_history := h }
        (match h.get_selected with
         | some query =>
           { app with input_state := ⟨query, query.length⟩ }
         | none => app, st)
      else if key.code = .Up ∨ (key.code = .Char 107 ∧ key.ctrl) then
        let h := app.search_history.select_prev
        let app := { app with search_history := h }
        (match h.get_selected with
         | some query =>
           { app with input_state := ⟨query, query.length⟩ }
         | none => app, st)
      else if key.code = .Enter ∨ (key.code = .Char 108 ∧ key.ctrl) then
        let query := trimBytes app.input_state.input
        if query ≠ [] then
          ({ app with search_state := .Loading query,
                      search_history := app.search_history.clear_selection },
           { st with current_screen := .SearchResults })
        else (app, st)
      else
        if key.ctrl = false then
          ({ app with search_history := app.search_history.clear_selection,
                      input_state := (TextInputState.handle_key key app.input_state).1 }, st)
        else (app, st)
    | .SearchResults =>
      if key.code = .Esc ∧ app.search_results_state.filter_mode = FilterMode.Inactive then
        (app, { st with current_screen := .SearchPrompt })
      else
        match app.search_state with
        | .Loaded _ results _ _ | .LoadingMore _ results _ _ =>
          let filtered_count := (iter_text_matches_filtered results app.search_results_state).length
          let r := SearchResultsState.handle_key key filtered_count results app.search_results_state
          let app' := { app with search_results_state := r.1 }
          (if r.2 = KeyHandleResult.NeedsPagination then app'.try_load_next_page else app', st)
        | _ => (app, st)

/-- `App::handle_message` from `src/app.rs`; `none` models the `panic!` on
`SearchError`/`PaginationError` ("let it crash"); the spawned history save is
fire-and-forget and not part of the state. -/
def App.handle_message (msg : AppMessage) (app : App) (st : AppState) :
    Option (App × AppState) :=
  match msg with
  | .SearchComplete results query =>
    some ({ app with
              search_state := .Loaded query results.results results.pagination 1,
              search_results_state := { app.search_results_state with
                                          filter_mode := FilterMode.Inactive,
                                          filter_input_state := ⟨[], 0⟩ },
              search_history := app.search_history.add_search query }, st)
  | .SearchError _ => none
  | .PaginationComplete results page =>
    match app.search_state with
    | .LoadingMore query current_results _ _ =>
      let merged : CodeResults := ⟨current_results.items ++ results.results.items⟩
      some ({ app with search_state := .Loaded query merged results.pagination page }, st)
    | _ => some (app, st)
  | .PaginationError _ => none
  | .HistoryLoaded searches =>
    some ({ app with search_history := SearchHistory.new searches }, st)

/-- C7: handling `PaginationComplete` while `LoadingMore` yields `Loaded` with
the old item list concatenated with the new page's items in order — no
reordering, no deduplication — the same query, and `current_page` equal to the
fetched page number (the pagination token is replaced by the new page's). -/
theorem pagination_merge_append (app : App) (st : AppState)
    (nr : CodeResultsWithPagination) (pg : Nat) (q : RStr) (res : CodeResults)
    (pag : Option PaginationInfo) (cp : Nat)
    (h : app.search_state = .LoadingMore q res pag cp) :
    App.handle_message (.PaginationComplete nr pg) app st =
      some ({ app with search_state :=
                SearchState.Loaded q ⟨res.items ++ nr.results.items⟩ nr.pagination pg },
            st) := by
  simp [App.handle_message, h]

/-- A concrete app in the `LoadingMore` state (query `"a"`, page 1). -/
def appLM : App :=
  ⟨.LoadingMore [97] ⟨[]⟩ none 1, ⟨[], none⟩, ⟨[98], 1⟩, ⟨0, 0, .Inactive, ⟨[], 0⟩⟩⟩

/-- Witness for C7: a concrete pagination completion merges by appending. -/
theorem pagination_merge_append_witness :
    appLM.search_state = SearchState.LoadingMore [97] ⟨[]⟩ none 1 ∧
    App.handle_message (.PaginationComplete ⟨⟨[sampleItem]⟩, none⟩ 2) appLM
        ⟨false, .SearchResults, 0⟩ =
      some ({ appLM with search_state :=
                SearchState.Loaded [97] ⟨([] : List ItemResult) ++ [sampleItem]⟩ none 2 },
            ⟨false, .SearchResults, 0⟩) :=
  ⟨rfl, pagination_merge_append appLM ⟨false, .SearchResults, 0⟩ ⟨⟨[sampleItem]⟩, none⟩ 2
      [97] ⟨[]⟩ none 1 rfl⟩

/-- Is the state `Idle` or `Loading`?  Used to state the `LoadingMore`
invariant of C4. -/
def is_idle_or_loading : SearchState → Bool
  | .Idle => true
  | .Loading _ => true
  | _ => false

/-- C4 (amended): while the state is `LoadingMore`, key events handled on the
results screen never change the search state at all, and no handled message
ever moves it to `Idle` or to `Loading` (`PaginationComplete` merges into
`Loaded`, a stale `SearchComplete` replaces it with `Loaded` at page 1,
`HistoryLoaded` leaves it untouched, errors crash).  The original claim's
"never `Loading` for a different query" fails only through the prompt screen:
submitting a new query there replaces the state with `Loading` (see the
counterexample). -/
theorem loading_more_never_idle_or_loading (app : App) (st : AppState)
    (key : KeyEvent) (msg : AppMessage) (q : RStr) (res : CodeResults)
    (pag : Option PaginationInfo) (cp : Nat)
    (hs : app.search_state = .LoadingMore q res pag cp)
    (hscr : st.current_screen = Screen.SearchResults) :
    (App.handle_key key app st).1.search_state = app.search_state ∧
    ((App.handle_message msg app st).map
        (fun p => is_idle_or_loading p.1.search_state)).getD false = false := by
  constructor
  · by_cases hp : key.press = false
    · simp [App.handle_key, hp]
    · simp only [App.handle_key, hp, if_false, Bool.not_eq_false]
      rw [hscr]
      by_cases hesc : key.code = KeyCode.Esc ∧
          app.search_results_state.filter_mode = FilterMode.Inactive
      · simp [hesc]
      · simp only [if_neg hesc]
        rw [hs]
        simp only []
        by_cases hpag :
            (SearchResultsState.handle_key key
              (iter_text_matches_filtered res app.search_results_state).length res
              app.search_results_state).2 = KeyHandleResult.NeedsPagination
        · simp [hpag, App.try_load_next_page, hs]
        · simp [hpag]
  · cases msg with
    | SearchComplete results query => simp [App.handle_message, is_idle_or_loading]
    | SearchError e => simp [App.handle_message]
    | PaginationComplete results page => simp [App.handle_message, hs, is_idle_or_loading]
    | PaginationError e => simp [App.handle_message]
    | HistoryLoaded searches => simp [App.handle_message, hs, is_idle_or_loading]

/-- C4 counterexample: from `LoadingMore` (query `"a"`), with the prompt
screen shown (reachable via `Esc` from the results screen), pressing `Enter`
with input `"b"` replaces the state with `Loading` for the different query
`"b"`. -/
theorem loading_more_prompt_submit_counterexample :
    appLM.search_state = SearchState.LoadingMore [97] ⟨[]⟩ none 1 ∧
    (App.handle_key ⟨.Enter, false, true⟩ appLM ⟨false, .SearchPrompt, 0⟩).1.search_state =
      SearchState.Loading [98] ∧
    ([98] : RStr) ≠ [97] := by
  refine ⟨rfl, by decide, by decide⟩

/-- Witness for C4 (amended): a concrete key on the results screen and a
concrete message, from a concrete `LoadingMore` state. -/
theorem loading_more_never_idle_or_loading_witness :
    appLM.search_state = SearchState.LoadingMore [97] ⟨[]⟩ none 1 ∧
    (AppState.mk false .SearchResults 0).current_screen = Screen.SearchResults ∧
    ((App.handle_key ⟨.Char 106, false, true⟩ appLM ⟨false, .SearchResults, 0⟩).1.search_state =
        appLM.search_state ∧
     ((App.handle_message (.HistoryLoaded []) appLM ⟨false, .SearchResults, 0⟩).map
        (fun p => is_idle_or_loading p.1.search_state)).getD false = false) :=
  ⟨rfl, rfl,
    loading_more_never_idle_or_loading appLM ⟨false, .SearchResults, 0⟩
      ⟨.Char 106, false, true⟩ (.HistoryLoaded []) [97] ⟨[]⟩ none 1 rfl rfl⟩

/-- Byte-list prefix test (Rust pattern matching inside `str::split`). -/
def isPrefixOfB : RStr → RStr → Bool
  | [], _ => true
  | _ :: _, [] => false
  | a :: p, b :: t => a == b && isPrefixOfB p t

/-- Byte-list substring test. -/
def isInfixOfB : RStr → RStr → Bool
  | n, [] => isPrefixOfB n []
  | n, b :: t => isPrefixOfB n (b :: t) || isInfixOfB n t

theorem isPrefixOfB_iff : ∀ (p s : RStr), isPrefixOfB p s = true ↔ p <+: s
  | [], s => by simp [isPrefixOfB]
  | a :: p, [] => by simp [isPrefixOfB]
  | a :: p, b :: t => by
    rw [List.cons_prefix_cons]
    simp [isPrefixOfB, isPrefixOfB_iff p t]

theorem isInfixOfB_iff : ∀ (n s : RStr), isInfixOfB n s = true ↔ n <:+: s
  | n, [] => by simp [isInfixOfB, isPrefixOfB_iff, List.infix_nil, List.prefix_nil]
  | n, b :: t => by
    rw [List.infix_cons_iff]
    simp [isInfixOfB, isPrefixOfB_iff, isInfixOfB_iff n t]

/-- Rust `str::split(sep)` for a string pattern, as the list of pieces between
non-overlapping leftmost occurrences of `sep` (used by
`PaginationInfo::get_last_page_number`). -/
def split_on_list (sep : RStr) (s : RStr) : List RStr :=
  if hsep : sep = [] then [s]
  else
    match s with
    | [] => [[]]
    | c :: rest =>
      if isPrefixOfB sep (c :: rest) then
        [] :: split_on_list sep ((c :: rest).drop sep.length)
      else
        match split_on_list sep rest with
        | [] => [[c]]
        | piece :: more => (c :: piece) :: more
termination_by s.length
decreasing_by
  · have h1 : 0 < sep.length := List.length_pos.mpr hsep
    simp only [List.length_drop, List.length_cons]
    omega
  · simp [Nat.lt_succ_self]

theorem split_on_list_ne_nil (sep s : RStr) : split_on_list sep s ≠ [] := by
  rw [split_on_list.eq_def]
  split
  · simp
  · split
    · simp
    · split
      · simp
      · split
        · simp
        · simp

theorem split_on_list_nil_input (sep : RStr) (hsep : sep ≠ []) :
    split_on_list sep [] = [[]] := by
  rw [split_on_list.eq_def]
  simp [hsep]

theorem split_on_list_match (sep : RStr) (c : Nat) (rest : RStr) (hsep : sep ≠ [])
    (h : isPrefixOfB sep (c :: rest) = true) :
    split_on_list sep (c :: rest) = [] :: split_on_list sep ((c :: rest).drop sep.length) := by
  rw [split_on_list.eq_def]
  simp [hsep, h]

theorem split_on_list_step (sep : RStr) (c : Nat) (rest : RStr) (hsep : sep ≠ [])
    (h : isPrefixOfB sep (c :: rest) = false) :
    split_on_list sep (c :: rest) =
      (c :: (split_on_list sep rest).headD []) :: (split_on_list sep rest).tail := by
  rw [split_on_list.eq_def]
  simp only [hsep, dite_false, h, Bool.false_eq_true, if_false]
  cases hsp : split_on_list sep rest with
  | nil => exact absurd hsp (split_on_list_ne_nil sep rest)
  | cons piece more => simp

theorem split_on_list_match' (sep s : RStr) (hsep : sep ≠ []) (hs : s ≠ [])
    (h : isPrefixOfB sep s = true) :
    split_on_list sep s = [] :: split_on_list sep (s.drop sep.length) := by
  obtain ⟨c, rest, rfl⟩ := List.exists_cons_of_ne_nil hs
  exact split_on_list_match sep c rest hsep h

/-- Splitting on `sep` at the first occurrence: if `sep` does not occur in the
part before it, the first piece is exactly `pre`. -/
theorem split_on_first_occurrence (sep : RStr) (hsep : sep ≠ []) :
    ∀ (pre mid : RStr), isInfixOfB sep (pre ++ sep.dropLast) = false →
      split_on_list sep (pre ++ sep ++ mid) = pre :: split_on_list sep mid := by
  intro pre
  induction pre with
  | nil =>
    intro mid hno
    rw [List.nil_append]
    rw [split_on_list_match' sep (sep ++ mid) hsep
      (by cases sep with | nil => exact absurd rfl hsep | cons a t => simp)
      ((isPrefixOfB_iff _ _).mpr (List.prefix_append sep mid))]
    rw [List.drop_left sep mid]
  | cons a pre ih =>
    intro mid hno
    have hq : (a :: pre) ++ sep.dropLast <+: (a :: pre) ++ sep ++ mid := by
      rw [List.append_assoc]
      obtain ⟨t, ht⟩ := (List.dropLast_prefix sep).trans (List.prefix_append sep mid)
      exact ⟨t, by rw [List.append_assoc, ht]⟩
    have hnp : isPrefixOfB sep ((a :: pre) ++ sep ++ mid) = false := by
      cases hpc : isPrefixOfB sep ((a :: pre) ++ sep ++ mid) with
      | false => rfl
      | true =>
        exfalso
        have hsp : sep <+: (a :: pre) ++ sep ++ mid := (isPrefixOfB_iff _ _).mp hpc
        have hlen : sep.length ≤ ((a :: pre) ++ sep.dropLast).length := by
          have h1 : 0 < sep.length := List.length_pos.mpr hsep
          simp [List.length_dropLast]
          omega
        have hin : sep <+: (a :: pre) ++ sep.dropLast :=
          List.prefix_of_prefix_length_le hsp hq hlen
        have htrue : isInfixOfB sep ((a :: pre) ++ sep.dropLast) = true :=
          (isInfixOfB_iff _ _).mpr hin.isInfix
        exact absurd (htrue.symm.trans hno) (by decide)
    have hno' : isInfixOfB sep (pre ++ sep.dropLast) = false := by
      cases hic : isInfixOfB sep (pre ++ sep.dropLast) with
      | false => rfl
      | true =>
        exfalso
        have h1 : sep <:+: pre ++ sep.dropLast := (isInfixOfB_iff _ _).mp hic
        have h2 : sep <:+: (a :: pre) ++ sep.dropLast :=
          h1.trans (List.suffix_cons a (pre ++ sep.dropLast)).isInfix
        have htrue : isInfixOfB sep ((a :: pre) ++ sep.dropLast) = true :=
          (isInfixOfB_iff _ _).mpr h2
        exact absurd (htrue.symm.trans hno) (by decide)
    have hstep := split_on_list_step sep a (pre ++ sep ++ mid) hsep
      (by simpa using hnp)
    rw [List.cons_append, List.cons_append] at *
    rw [hstep, ih mid hno']
    simp

/-- With no occurrence of `sep`, splitting yields the whole string. -/
theorem split_no_occurrence (sep : RStr) (hsep : sep ≠ []) :
    ∀ s : RStr, isInfixOfB sep s = false → split_on_list sep s = [s]
  | [], _ => split_on_list_nil_input sep hsep
  | c :: rest, h => by
    have hcomp : isPrefixOfB sep (c :: rest) = false ∧ isInfixOfB sep rest = false := by
      simpa [isInfixOfB] using h
    rw [split_on_list_step sep c rest hsep hcomp.1,
      split_no_occurrence sep hsep rest hcomp.2]
    rfl

/-- The first piece of splitting on `'&'` is `takeWhile (· ≠ '&')`. -/
theorem split_amp_head : ∀ s : RStr,
    (split_on_list [38] s).headD [] = s.takeWhile (fun b => !(b == 38))
  | [] => by
    rw [split_on_list_nil_input [38] (by simp)]
    rfl
  | c :: rest => by
    by_cases hc : c = 38
    · subst hc
      rw [split_on_list_match [38] 38 rest (by simp) (by simp [isPrefixOfB])]
      simp [List.takeWhile_cons]
    · have hp : isPrefixOfB [38] (c :: rest) = false := by
        simp [isPrefixOfB]
        omega
      rw [split_on_list_step [38] c rest (by simp) hp]
      have hrec := split_amp_head rest
      have hstep : ((c :: (split_on_list [38] rest).headD []) ::
          (split_on_list [38] rest).tail).headD [] =
          c :: (split_on_list [38] rest).headD [] := rfl
      rw [hstep, hrec]
      have hpc : (fun b => !(b == 38)) c = true := by
        simp
        omega
      simp [List.takeWhile_cons, hpc]

/-- `pageSep` is the byte string `"page="`. -/
def pageSep : RStr := [112, 97, 103, 101, 61]

/-- The first split piece of `digits ++ "&" ++ r'` on `"page="` starts with
`digits ++ "&"` when `digits` are decimal digits. -/
theorem split_page_head_digits : ∀ (digits r' : RStr),
    (∀ b ∈ digits, 48 ≤ b ∧ b ≤ 57) →
    ∃ t, (split_on_list pageSep (digits ++ 38 :: r')).headD [] = digits ++ 38 :: t
  | [], r', _ => by
    rw [List.nil_append]
    have hp : isPrefixOfB pageSep (38 :: r') = false := by
      simp [pageSep, isPrefixOfB]
    rw [split_on_list_step pageSep 38 r' (by simp [pageSep]) hp]
    exact ⟨(split_on_list pageSep r').headD [], rfl⟩
  | d :: ds, r', hd => by
    have hd' : 48 ≤ d ∧ d ≤ 57 := hd d (by simp)
    have hp : isPrefixOfB pageSep (d :: (ds ++ 38 :: r')) = false := by
      simp [pageSep, isPrefixOfB]
      omega
    rw [List.cons_append, split_on_list_step pageSep d (ds ++ 38 :: r')
      (by simp [pageSep]) hp]
    obtain ⟨t, ht⟩ := split_page_head_digits ds r' (fun b hb => hd b (by simp [hb]))
    refine ⟨t, ?_⟩
    have hstep : ((d :: (split_on_list pageSep (ds ++ 38 :: r')).headD []) ::
        (split_on_list pageSep (ds ++ 38 :: r')).tail).headD [] =
        d :: (split_on_list pageSep (ds ++ 38 :: r')).headD [] := rfl
    rw [hstep, ht]
    simp

/-- Decimal digits before a `'&'` survive `takeWhile (· ≠ '&')` exactly. -/
theorem takeWhile_digits_amp (t : RStr) : ∀ digits : RStr,
    (∀ b ∈ digits, 48 ≤ b ∧ b ≤ 57) →
    (digits ++ 38 :: t).takeWhile (fun b => !(b == 38)) = digits
  | [], _ => by simp [List.takeWhile_cons]
  | d :: ds, hd => by
    have hd' : 48 ≤ d ∧ d ≤ 57 := hd d (by simp)
    have hne : (d == 38) = false := by
      simp
      omega
    simp [List.takeWhile_cons, hne, takeWhile_digits_amp t ds (fun b hb => hd b (by simp [hb]))]

/-- The numeric value accumulated by `str::parse::<u32>` over decimal digits. -/
def natOfDigits (ds : RStr) : Nat :=
  ds.foldl (fun a b => a * 10 + (b - 48)) 0

/-- Strip the optional leading `'+'` accepted by integer `FromStr`. -/
def strip_plus (s : RStr) : RStr :=
  match s with
  | 43 :: rest => rest
  | _ => s

theorem strip_plus_eq (d : Nat) (ds : RStr) (h : d ≠ 43) :
    strip_plus (d :: ds) = d :: ds := by
  unfold strip_plus
  split
  · rename_i rest heq
    exact absurd (List.cons.inj heq).1 h
  · rfl

/-- Rust `str::parse::<u32>()` (an optional leading `'+'`, then one or more
decimal digits, rejecting values beyond `u32::MAX`), returning `none` for
`Err`. -/
def parse_u32 (s : RStr) : Option Nat :=
  let digits := strip_plus s
  if digits ≠ [] ∧ (∀ b ∈ digits, 48 ≤ b ∧ b ≤ 57) then
    if natOfDigits digits < 4294967296 then some (natOfDigits digits) else none
  else none

theorem parse_u32_digits (digits : RStr) (hne : digits ≠ [])
    (hd : ∀ b ∈ digits, 48 ≤ b ∧ b ≤ 57)
    (hv : natOfDigits digits < 4294967296) :
    parse_u32 digits = some (natOfDigits digits) := by
  obtain ⟨d, ds, rfl⟩ := List.exists_cons_of_ne_nil hne
  have hd48 : 48 ≤ d := (hd d (by simp)).1
  unfold parse_u32
  rw [strip_plus_eq d ds (by omega)]
  simp only [ne_eq, List.cons_ne_self]
  rw [if_pos ⟨by simp, hd⟩, if_pos hv]

/-- `PaginationInfo::get_last_page_number` from `src/api.rs`:
`last.split("page=").nth(1).and_then(|s| s.split('&').next()).and_then(parse)`. -/
def get_last_page_number (p : PaginationInfo) : Option Nat :=
  p.last.bind (fun url =>
    ((split_on_list pageSep url).get? 1).bind (fun s1 =>
      (split_on_list [38] s1).head?.bind (fun s2 => parse_u32 s2)))

theorem no_pageSep_in_digits (digits : RStr)
    (hd : ∀ b ∈ digits, 48 ≤ b ∧ b ≤ 57) : isInfixOfB pageSep digits = false := by
  cases h : isInfixOfB pageSep digits with
  | false => rfl
  | true =>
    exfalso
    obtain ⟨s1, t1, heq⟩ := (isInfixOfB_iff _ _).mp h
    have hmem : 112 ∈ digits := by
      rw [← heq]
      simp [pageSep]
    have := hd 112 hmem
    omega

theorem no_amp_in_digits (digits : RStr)
    (hd : ∀ b ∈ digits, 48 ≤ b ∧ b ≤ 57) : isInfixOfB [38] digits = false := by
  cases h : isInfixOfB [38] digits with
  | false => rfl
  | true =>
    exfalso
    obtain ⟨s1, t1, heq⟩ := (isInfixOfB_iff _ _).mp h
    have hmem : 38 ∈ digits := by
      rw [← heq]
      simp
    have := hd 38 hmem
    omega

/-- C8 (amended): `get_last_page_number` parses the number that follows the
FIRST occurrence of the substring `"page="` in the `last` URL (up to the next
`'&'`); whenever no earlier occurrence of `"page="` exists before the `page`
parameter (in particular no `per_page=` parameter precedes it), this is the
value `N` of the `page=N` parameter.  It returns `None` when there is no
`last` link (immediate from the definition's `last.bind`). -/
theorem get_last_page_number_first_occurrence (p : PaginationInfo)
    (pre digits rest : RStr)
    (hurl : p.last = some (pre ++ pageSep ++ digits ++ rest))
    (hno : isInfixOfB pageSep (pre ++ pageSep.dropLast) = false)
    (hdig : digits ≠ []) (hdigits : ∀ b ∈ digits, 48 ≤ b ∧ b ≤ 57)
    (hrest : rest = [] ∨ ∃ r', rest = 38 :: r')
    (hval : natOfDigits digits < 4294967296) :
    get_last_page_number p = some (natOfDigits digits) := by
  unfold get_last_page_number
  rw [hurl]
  have hsep : pageSep ≠ [] := by simp [pageSep]
  have hassoc : pre ++ pageSep ++ digits ++ rest = pre ++ pageSep ++ (digits ++ rest) := by
    simp [List.append_assoc]
  rw [Option.some_bind, hassoc,
    split_on_first_occurrence pageSep hsep pre (digits ++ rest) hno]
  rcases hrest with rfl | ⟨r', rfl⟩
  · rw [List.append_nil]
    rw [split_no_occurrence pageSep hsep digits (no_pageSep_in_digits digits hdigits)]
    have hget : ((pre :: [digits] : List RStr).get? 1) = some digits := rfl
    rw [hget, Option.some_bind]
    rw [split_no_occurrence [38] (by simp) digits (no_amp_in_digits digits hdigits)]
    rw [show ([digits] : List RStr).head? = some digits from rfl, Option.some_bind]
    exact parse_u32_digits digits hdig hdigits hval
  · obtain ⟨t, ht⟩ := split_page_head_digits digits r' hdigits
    cases hLs : split_on_list pageSep (digits ++ 38 :: r') with
    | nil => exact absurd hLs (split_on_list_ne_nil _ _)
    | cons p0 more =>
      have hp0 : p0 = digits ++ 38 :: t := by
        rw [hLs] at ht
        simpa using ht
      have hget : ((pre :: p0 :: more : List RStr).get? 1) = some p0 := rfl
      rw [hget, Option.some_bind, hp0]
      have hamp := split_amp_head (digits ++ 38 :: t)
      rw [takeWhile_digits_amp t digits hdigits] at hamp
      cases hAs : split_on_list [38] (digits ++ 38 :: t) with
      | nil => exact absurd hAs (split_on_list_ne_nil _ _)
      | cons a0 amore =>
        have ha0 : a0 = digits := by
          rw [hAs] at hamp
          simpa using hamp
        rw [show (a0 :: amore : List RStr).head? = some a0 from rfl, Option.some_bind, ha0]
        exact parse_u32_digits digits hdig hdigits hval

/-- C8 counterexample: for a well-formed last URL whose query string contains
`per_page=30` before `page=34` (bytes of `"per_page=30&page=34"`), the split on
`"page="` hits the occurrence inside `per_page=` first, so
`get_last_page_number` returns `Some 30`, not the `page` parameter `34`. -/
theorem get_last_page_number_per_page_counterexample :
    get_last_page_number ⟨none, none, none,
        some [112, 101, 114, 95, 112, 97, 103, 101, 61, 51, 48, 38,
              112, 97, 103, 101, 61, 51, 52]⟩ = some 30 ∧
    (30 : Nat) ≠ 34 := by
  constructor
  · unfold get_last_page_number
    simp [split_on_list, isPrefixOfB, pageSep, parse_u32, strip_plus, natOfDigits] <;>
      decide
  · decide

/-- Witness for C8 (amended): the last URL `"page=34"` with no earlier
`page=` occurrence yields `Some 34`. -/
theorem get_last_page_number_first_occurrence_witness :
    (PaginationInfo.mk none none none
        (some ([] ++ pageSep ++ [51, 52] ++ []))).last =
      some ([] ++ pageSep ++ [51, 52] ++ []) ∧
    isInfixOfB pageSep ([] ++ pageSep.dropLast) = false ∧
    ([51, 52] : RStr) ≠ [] ∧
    (∀ b ∈ ([51, 52] : RStr), 48 ≤ b ∧ b ≤ 57) ∧
    (([] : RStr) = [] ∨ ∃ r', ([] : RStr) = 38 :: r') ∧
    natOfDigits [51, 52] < 4294967296 ∧
    get_last_page_number
        (PaginationInfo.mk none none none (some ([] ++ pageSep ++ [51, 52] ++ []))) =
      some (natOfDigits [51, 52]) ∧
    natOfDigits [51, 52] = 34 :=
  ⟨rfl, by decide, by decide, by decide, Or.inl rfl, by decide,
    get_last_page_number_first_occurrence
      (PaginationInfo.mk none none none (some ([] ++ pageSep ++ [51, 52] ++ [])))
      [] [51, 52] [] rfl (by decide) (by decide) (by decide) (Or.inl rfl) (by decide),
    by decide⟩

/-- `calculated_offset_start` from `SearchResults::render`
(`src/widgets/search_results.rs` lines 209-213): the summed heights, plus 3
border/margin rows each, of the fragments before the selected one. -/
def calculated_offset_start (heights : List Nat) (idx : Nat) : Nat :=
  ((heights.take idx).map (· + 3)).sum

/-- `calculated_offset_end` (lines 214-218): same sum including the selected
fragment. -/
def calculated_offset_end (heights : List Nat) (idx : Nat) : Nat :=
  ((heights.take (idx + 1)).map (· + 3)).sum

/-- The scroll adjustment of `SearchResults::render` (lines 220-231): both
window bounds are captured from the incoming scroll before either `if`
mutates it. -/
def render_adjust_scroll (heights : List Nat) (selected scroll h : Nat) : Nat :=
  let offEnd := calculated_offset_end heights selected
  let offStart := calculated_offset_start heights selected
  let current_window_start := scroll
  let current_window_end := scroll + h
  let scroll1 := if current_window_end < offEnd then offEnd - h else scroll
  if offStart < current_window_start then offStart else scroll1

theorem offset_end_eq (heights : List Nat) (sel : Nat) (h : sel < heights.length) :
    calculated_offset_end heights sel =
      calculated_offset_start heights sel + (heights.getD sel 0 + 3) := by
  unfold calculated_offset_end calculated_offset_start
  rw [List.map_take, List.map_take, List.sum_take_succ _ sel (by simpa using h)]
  have hb : sel < (heights.map (· + 3)).length := by simpa using h
  have hget : (heights.map (· + 3))[sel] = heights.getD sel 0 + 3 := by
    simp [List.getD_eq_getElem?_getD, List.getElem?_eq_getElem h]
  rw [hget]

/-- C6 (amended): provided the selected fragment exists and its rendered
height (line count plus 3 border/margin rows) fits the viewport, the adjusted
scroll places the fragment's full range inside the window; the scroll grows
only if the selection's bottom exceeded the old bottom edge, shrinks only if
its top was above the old top edge, and is unchanged otherwise.  (Without the
height-fits hypothesis the containment fails, see the counterexample.) -/
theorem render_adjust_scroll_keeps_selection_visible (heights : List Nat)
    (selected scroll h : Nat)
    (hsel : selected < heights.length)
    (hfit : heights.getD selected 0 + 3 ≤ h) :
    (render_adjust_scroll heights selected scroll h ≤
        calculated_offset_start heights selected ∧
      calculated_offset_end heights selected ≤
        render_adjust_scroll heights selected scroll h + h) ∧
    (scroll < render_adjust_scroll heights selected scroll h →
      scroll + h < calculated_offset_end heights selected) ∧
    (render_adjust_scroll heights selected scroll h < scroll →
      calculated_offset_start heights selected < scroll) ∧
    (calculated_offset_end heights selected ≤ scroll + h →
      scroll ≤ calculated_offset_start heights selected →
      render_adjust_scroll heights selected scroll h = scroll) := by
  have hoff := offset_end_eq heights selected hsel
  simp only [render_adjust_scroll]
  split_ifs <;> refine ⟨⟨?_, ?_⟩, ?_, ?_, ?_⟩ <;> omega

/-- C6 counterexample: a selected fragment of rendered height 10 in a
viewport of height 5 (old scroll 2) ends up with final scroll 0, and its
range `[0, 10)` does not fit in the window `[0, 5)`. -/
theorem scroll_adjust_tall_fragment_counterexample :
    render_adjust_scroll [7] 0 2 5 = 0 ∧
    calculated_offset_end [7] 0 = 10 ∧
    ¬ (calculated_offset_end [7] 0 ≤ render_adjust_scroll [7] 0 2 5 + 5) := by
  refine ⟨by decide, by decide, by decide⟩

/-- Witness for C6 (amended): a fragment of height 2 (+3 rows) in a viewport
of height 6 with old scroll 7 scrolls up to 0 and the range `[0, 5)` fits. -/
theorem render_adjust_scroll_keeps_selection_visible_witness :
    (0 : Nat) < ([2] : List Nat).length ∧
    ([2] : List Nat).getD 0 0 + 3 ≤ 6 ∧
    ((render_adjust_scroll [2] 0 7 6 ≤ calculated_offset_start [2] 0 ∧
      calculated_offset_end [2] 0 ≤ render_adjust_scroll [2] 0 7 6 + 6) ∧
     (7 < render_adjust_scroll [2] 0 7 6 → 7 + 6 < calculated_offset_end [2] 0) ∧
     (render_adjust_scroll [2] 0 7 6 < 7 → calculated_offset_start [2] 0 < 7) ∧
     (calculated_offset_end [2] 0 ≤ 7 + 6 → 7 ≤ calculated_offset_start [2] 0 →
      render_adjust_scroll [2] 0 7 6 = 7)) :=
  ⟨by decide, by decide,
    render_adjust_scroll_keeps_selection_visible [2] 0 7 6 (by decide) (by decide)⟩
